import Mathlib

/-!
Shallow embedding of `src/SideviewCreator2.py` (Blender AIGC texture
projection add-on) and verification of its specification claims.

Python floats are modelled by `PyFloat`: exact rationals extended with the
IEEE special values `+inf`, `-inf` and `nan` (finite arithmetic is treated
as exact; the claims checked here only involve comparisons, sentinels and
values that floats represent exactly).
-/

/-- IEEE-style floating point value: `nan`, `+inf`, `-inf`, or a finite
value modelled as an exact rational. -/
inductive PyFloat where
  | nan : PyFloat
  | pinf : PyFloat
  | ninf : PyFloat
  | fin : ℚ → PyFloat
deriving DecidableEq, Repr

namespace PyFloat

/-- IEEE `<` comparison: any comparison with `nan` is false. -/
def flt : PyFloat → PyFloat → Bool
  | nan, _ => false
  | _, nan => false
  | pinf, _ => false
  | _, pinf => true
  | ninf, ninf => false
  | ninf, _ => true
  | _, ninf => false
  | fin a, fin b => decide (a < b)

/-- Python `min(a, b)`: returns `a` unless `b < a`. -/
def pymin (a b : PyFloat) : PyFloat := if flt b a then b else a

/-- Python `max(a, b)`: returns `a` unless `a < b`. -/
def pymax (a b : PyFloat) : PyFloat := if flt a b then b else a

/-- IEEE addition on the extended values; finite addition exact. -/
def fadd : PyFloat → PyFloat → PyFloat
  | nan, _ => nan
  | _, nan => nan
  | pinf, ninf => nan
  | ninf, pinf => nan
  | pinf, _ => pinf
  | _, pinf => pinf
  | ninf, _ => ninf
  | _, ninf => ninf
  | fin a, fin b => fin (a + b)

/-- IEEE subtraction on the extended values; finite subtraction exact. -/
def fsub : PyFloat → PyFloat → PyFloat
  | nan, _ => nan
  | _, nan => nan
  | pinf, pinf => nan
  | ninf, ninf => nan
  | pinf, _ => pinf
  | _, pinf => ninf
  | ninf, _ => ninf
  | _, ninf => pinf
  | fin a, fin b => fin (a - b)

/-- IEEE multiplication on the extended values; finite multiplication exact. -/
def fmul : PyFloat → PyFloat → PyFloat
  | nan, _ => nan
  | _, nan => nan
  | pinf, pinf => pinf
  | pinf, ninf => ninf
  | ninf, pinf => ninf
  | ninf, ninf => pinf
  | pinf, fin b => if b > 0 then pinf else if b < 0 then ninf else nan
  | fin a, pinf => if a > 0 then pinf else if a < 0 then ninf else nan
  | ninf, fin b => if b > 0 then ninf else if b < 0 then pinf else nan
  | fin a, ninf => if a > 0 then ninf else if a < 0 then pinf else nan
  | fin a, fin b => fin (a * b)

/-- Division by two (used for the vertical center). -/
def fhalf : PyFloat → PyFloat
  | nan => nan
  | pinf => pinf
  | ninf => ninf
  | fin a => fin (a / 2)

end PyFloat

open PyFloat

/-- A 3-component vector of exact rationals (finite float data coming from
the host scene graph). -/
structure Vec3 where
  x : ℚ
  y : ℚ
  z : ℚ
deriving DecidableEq, Repr

/-- A 3-component vector of Python floats (accumulators that may hold the
`±inf` sentinels). -/
structure Vec3F where
  x : PyFloat
  y : PyFloat
  z : PyFloat
deriving DecidableEq, Repr

/-- Blender world matrix applied to a point: affine transform with a 3×3
linear part and a translation column, all finite. -/
structure WorldMatrix where
  m00 : ℚ
  m01 : ℚ
  m02 : ℚ
  m03 : ℚ
  m10 : ℚ
  m11 : ℚ
  m12 : ℚ
  m13 : ℚ
  m20 : ℚ
  m21 : ℚ
  m22 : ℚ
  m23 : ℚ
deriving DecidableEq, Repr

/-- `obj.matrix_world @ Vector(coord)`: affine application of the world
matrix to a local corner. -/
def applyWorld (m : WorldMatrix) (v : Vec3) : Vec3 :=
  ⟨m.m00 * v.x + m.m01 * v.y + m.m02 * v.z + m.m03,
   m.m10 * v.x + m.m11 * v.y + m.m12 * v.z + m.m13,
   m.m20 * v.x + m.m21 * v.y + m.m22 * v.z + m.m23⟩

/-- A visible mesh object as seen by `get_scene_bounding_box`: its world
matrix and the (normally 8) local bounding-box corners. -/
structure Mesh where
  matrix_world : WorldMatrix
  bound_box : List Vec3
deriving DecidableEq, Repr

/-- One accumulation step of `get_scene_bounding_box`: fold a world-space
corner into the running componentwise min/max. -/
def bboxStep (acc : Vec3F × Vec3F) (w : Vec3) : Vec3F × Vec3F :=
  (⟨pymin acc.1.x (fin w.x), pymin acc.1.y (fin w.y), pymin acc.1.z (fin w.z)⟩,
   ⟨pymax acc.2.x (fin w.x), pymax acc.2.y (fin w.y), pymax acc.2.z (fin w.z)⟩)

/-- `get_scene_bounding_box`: seed the running min with `(+inf,+inf,+inf)`
and the running max with `(-inf,-inf,-inf)`, then for every mesh and every
local corner, transform the corner to world space and update each axis
independently. -/
def get_scene_bounding_box (meshes : List Mesh) : Vec3F × Vec3F :=
  meshes.foldl
    (fun acc obj => obj.bound_box.foldl
      (fun a coord => bboxStep a (applyWorld obj.matrix_world coord)) acc)
    (⟨pinf, pinf, pinf⟩, ⟨ninf, ninf, ninf⟩)

/-- All world-space corners of a mesh list, in traversal order. -/
def worldCorners (obj : Mesh) : List Vec3 :=
  obj.bound_box.map (applyWorld obj.matrix_world)

/-- Flattened list of every transformed corner of every mesh. -/
def allCorners (meshes : List Mesh) : List Vec3 :=
  meshes.flatMap worldCorners

/-- IEEE negation (Python unary minus on a float). -/
def PyFloat.fneg : PyFloat → PyFloat
  | PyFloat.nan => PyFloat.nan
  | PyFloat.pinf => PyFloat.ninf
  | PyFloat.ninf => PyFloat.pinf
  | PyFloat.fin a => PyFloat.fin (-a)

/-- Python `max` over the three components of a `Vector` (first element is
the initial candidate, later elements replace it when strictly greater). -/
def max3 (a b c : PyFloat) : PyFloat := pymax (pymax a b) c

/-- A camera object: its name, whether it lives in the "Orthogonal
Cameras" collection, its location, its Euler rotation (stored in degrees;
the source passes `radians(d)`, a fixed `π/180` rescale), and its
orthographic scale. -/
structure Cam where
  name : String
  inColl : Bool
  loc : Vec3F
  euler_deg : Vec3
  ortho_scale : PyFloat
deriving DecidableEq, Repr

/-- The six camera names `Camera_{dir}` in source order. -/
def dirNames : List String :=
  ["Camera_X", "Camera_Y", "Camera_Z", "Camera_-X", "Camera_-Y", "Camera_-Z"]

/-- The pure camera derivation of `GenerateCamerasOperator.execute`, lines
83–96 and 113–119: from the bounding box compute `distances`,
`max_dimension` and `z_center`, and build the six orthographic cameras of
the `directions` table, each with `ortho_scale = max_dimension * 1.1`. -/
def planRig (mn mx : Vec3F) : List Cam :=
  let distances := fadd (max3 mx.x mx.y mx.z) (PyFloat.fin 20)
  let max_dimension := max3 (fsub mx.x mn.x) (fsub mx.y mn.y) (fsub mx.z mn.z)
  let z_center := fhalf (fadd mx.z mn.z)
  let scale := fmul max_dimension (PyFloat.fin (11 / 10))
  [⟨"Camera_X", true, ⟨distances, PyFloat.fin 0, z_center⟩, ⟨-90, 180, -90⟩, scale⟩,
   ⟨"Camera_Y", true, ⟨PyFloat.fin 0, distances, z_center⟩, ⟨-90, 180, 0⟩, scale⟩,
   ⟨"Camera_Z", true, ⟨PyFloat.fin 0, PyFloat.fin 0, distances⟩, ⟨0, 0, 0⟩, scale⟩,
   ⟨"Camera_-X", true, ⟨PyFloat.fneg distances, PyFloat.fin 0, z_center⟩, ⟨-90, -180, 90⟩, scale⟩,
   ⟨"Camera_-Y", true, ⟨PyFloat.fin 0, PyFloat.fneg distances, z_center⟩, ⟨90, 0, 0⟩, scale⟩,
   ⟨"Camera_-Z", true, ⟨PyFloat.fin 0, PyFloat.fin 0, PyFloat.fneg distances⟩, ⟨180, 0, 0⟩, scale⟩]

/-- Host scene state relevant to `GenerateCamerasOperator`: the camera
objects in the file, the visible meshes, and whether some selected mesh
still has materials or UV layers. -/
structure SceneState where
  cams : List Cam
  meshes : List Mesh
  has_uncleared : Bool
deriving Repr

/-- Operator return status. -/
inductive GenResult where
  | FINISHED : GenResult
  | CANCELLED : GenResult
deriving DecidableEq, Repr

/-- `check_existing_cameras`: true when the "Orthogonal Cameras"
collection already holds exactly 6 camera objects. -/
def check_existing_cameras (cams : List Cam) : Bool :=
  (cams.filter (fun c => c.inColl)).length == 6

/-- `GenerateCamerasOperator.execute`: cancel if a full six-camera rig
already exists or if uncleared materials/UVs remain; otherwise compute the
scene bounding box, delete every object named `Camera_{dir}`, and create
the six new cameras inside the collection. -/
def executeGenerate (st : SceneState) : GenResult × SceneState :=
  if check_existing_cameras st.cams then (GenResult.CANCELLED, st)
  else if st.has_uncleared then (GenResult.CANCELLED, st)
  else
    let b := get_scene_bounding_box st.meshes
    let kept := st.cams.filter (fun c => ! dirNames.contains c.name)
    (GenResult.FINISHED, { st with cams := kept ++ planRig b.1 b.2 })

/-- An RGBA pixel value. -/
def RGBA : Type := ℕ × ℕ × ℕ × ℕ
deriving DecidableEq

/-- The fully transparent pixel, the fill of a fresh PIL RGBA canvas and
of out-of-bounds crop regions. -/
def transparentPix : RGBA := (0, 0, 0, 0)

/-- A raster image: dimensions plus a pixel function (only coordinates
below the dimensions are meaningful). -/
structure Image where
  width : ℕ
  height : ℕ
  pix : ℕ → ℕ → RGBA

/-- `PIL.Image.new("RGBA", (w, h))`: a blank, fully transparent canvas. -/
def Image.new (w h : ℕ) : Image := ⟨w, h, fun _ _ => transparentPix⟩

/-- `base.paste(img, (x, y))`: overwrite the rectangle of `img`'s size at
origin `(x, y)`; pixels outside it keep the base values. -/
def Image.paste (base img : Image) (x y : ℕ) : Image :=
  ⟨base.width, base.height, fun a b =>
    if x ≤ a ∧ a < x + img.width ∧ y ≤ b ∧ b < y + img.height then
      img.pix (a - x) (b - y)
    else base.pix a b⟩

/-- `img.crop((l, t, r, b))`: an `(r-l) × (b-t)` image reading from the
source at offset `(l, t)`; regions outside the source are transparent
(PIL zero-fills out-of-bounds crops, it raises no dimension error). -/
def Image.crop (img : Image) (l t r b : ℕ) : Image :=
  ⟨r - l, b - t, fun u v =>
    if l + u < img.width ∧ t + v < img.height then img.pix (l + u) (t + v)
    else transparentPix⟩

/-- The six atlas directions. -/
inductive Dir where
  | X : Dir
  | Y : Dir
  | Z : Dir
  | negX : Dir
  | negY : Dir
  | negZ : Dir
deriving DecidableEq, Repr

/-- `image_order`: the fixed packing order (the source lists the camera
names `Camera_X .. Camera_-Z`; rendered images are keyed by those names,
i.e. by direction). -/
def image_order : List Dir := [Dir.X, Dir.Y, Dir.Z, Dir.negX, Dir.negY, Dir.negZ]

/-- One iteration of the `create_collage` loop: paste face `p.2` (when
supplied) at `((p.1 % 3) * 512, (p.1 // 3) * 512)`. -/
def collageStep (faces : Dir → Option Image) (collage : Image) (p : ℕ × Dir) : Image :=
  match faces p.2 with
  | some img => collage.paste img ((p.1 % 3) * 512) ((p.1 / 3) * 512)
  | none => collage

/-- `RENDERSETTINGS_OT_render_image.create_collage`: allocate a blank
`1536 × 1024` RGBA canvas and paste face `i` (when supplied) at
`((i % 3) * 512, (i // 3) * 512)`; a missing face leaves its cell blank. -/
def create_collage (faces : Dir → Option Image) : Image :=
  image_order.enum.foldl (collageStep faces) (Image.new (512 * 3) (512 * 2))

/-- `sub_texture_order` from `ApplyTexturesOperator.execute`. -/
def sub_texture_order : List String :=
  ["T_B_X", "T_B_Y", "T_B_Z", "T_B_-X", "T_B_-Y", "T_B_-Z"]

/-- `sub_texture_positions` from `ApplyTexturesOperator.execute`. -/
def sub_texture_positions : List (ℕ × ℕ) :=
  [(0, 0), (512, 0), (1024, 0), (0, 512), (512, 512), (1024, 512)]

/-- The unpack loop of `ApplyTexturesOperator.execute`: for each slot name
in order, crop the `512 × 512` cell at the fixed position. There is no
check on the atlas dimensions before cropping. -/
def unpack_sub_textures (collage : Image) : List (String × Image) :=
  sub_texture_order.enum.map (fun p =>
    let q := sub_texture_positions.getD p.1 (0, 0)
    (p.2, collage.crop q.1 q.2 (q.1 + 512) (q.2 + 512)))

/-- `NextTryOperator.execute`, modelled over the file-existence predicate
`ex`: increment the stored index, scan `range(cur+1, 11)` for the first
existing `AIGC_OUTPUT_{i:02}.png`, else scan `range(1, cur+1)`; when a
candidate is found the stored index becomes it and the result is found,
otherwise the stored index keeps the incremented value `cur + 1`. -/
def next_try (ex : ℕ → Bool) (cur : ℕ) : ℕ × Bool :=
  let cur1 := cur + 1
  match (List.range' cur1 (11 - cur1)).find? ex with
  | some i => (i, true)
  | none =>
      match (List.range' 1 (cur1 - 1)).find? ex with
      | some i => (i, true)
      | none => (cur1, false)

/-- Outcome of the collage-path selection at the start of
`ApplyTexturesOperator.execute`. -/
inductive ApplyPathOutcome where
  | cancelled : ApplyPathOutcome
  | unboundLocalRead : ApplyPathOutcome
  | proceeds : ℕ → ApplyPathOutcome
deriving DecidableEq, Repr

/-- The collage-path selection of `ApplyTexturesOperator.execute`: with a
positive `output_index`, use that candidate or cancel with a warning when
it does not exist; otherwise scan indices `1..10` and bind `collage_path`
to the first existing candidate — when none exists the loop binds nothing
and the following `if not collage_path` check reads an unbound local
variable. -/
def find_collage_path (ex : ℕ → Bool) (output_index : ℤ) : ApplyPathOutcome :=
  if output_index > 0 then
    if ex output_index.toNat then ApplyPathOutcome.proceeds output_index.toNat
    else ApplyPathOutcome.cancelled
  else
    match (List.range' 1 10).find? ex with
    | some i => ApplyPathOutcome.proceeds i
    | none => ApplyPathOutcome.unboundLocalRead

/-- Modelled from the spec's words (§4.4), for comparison with the code:
scan `currentIndex+1 .. maxIndex` forward, then wrap to scan
`1 .. currentIndex-1`, else return `(currentIndex, false)` leaving the
index unchanged. -/
def advanceSpecModel (ex : ℕ → Bool) (cur : ℕ) : ℕ × Bool :=
  match (List.range' (cur + 1) (11 - (cur + 1))).find? ex with
  | some i => (i, true)
  | none =>
      match (List.range' 1 (cur - 1)).find? ex with
      | some i => (i, true)
      | none => (cur, false)

/-- The point `(a, b)` lies outside the atlas cell of packing index `j`. -/
def outsideCell (j a b : ℕ) : Prop :=
  a < (j % 3) * 512 ∨ (j % 3) * 512 + 512 ≤ a ∨
  b < (j / 3) * 512 ∨ (j / 3) * 512 + 512 ≤ b

/-- A stale six-camera rig (derived from an earlier, different bounding
box) used as a concrete prior state. -/
def staleRig : List Cam :=
  dirNames.map (fun n =>
    ⟨n, true, ⟨PyFloat.fin 0, PyFloat.fin 0, PyFloat.fin 0⟩, ⟨0, 0, 0⟩, PyFloat.fin 999⟩)

/-- A concrete one-mesh scene: identity world matrix, the 8 corners of the
unit cube. -/
def cubeMesh : Mesh :=
  ⟨⟨1, 0, 0, 0, 0, 1, 0, 0, 0, 0, 1, 0⟩,
   [⟨0, 0, 0⟩, ⟨0, 0, 1⟩, ⟨0, 1, 0⟩, ⟨0, 1, 1⟩,
    ⟨1, 0, 0⟩, ⟨1, 0, 1⟩, ⟨1, 1, 0⟩, ⟨1, 1, 1⟩]⟩

/-- A concrete 512×512 face image used by witnesses, carrying its
direction tag in every pixel. -/
def monoFace (n : ℕ) : Image := ⟨512, 512, fun _ _ => (n, 0, 0, 255)⟩

/-- A complete concrete face mapping (all six directions supplied). -/
def fullFaces : Dir → Image
  | Dir.X => monoFace 1
  | Dir.Y => monoFace 2
  | Dir.Z => monoFace 3
  | Dir.negX => monoFace 4
  | Dir.negY => monoFace 5
  | Dir.negZ => monoFace 6

/-- A partial concrete face mapping (four of six directions supplied). -/
def partialFaces : Dir → Option Image
  | Dir.X => some (monoFace 1)
  | Dir.Y => some (monoFace 2)
  | Dir.Z => none
  | Dir.negX => some (monoFace 4)
  | Dir.negY => none
  | Dir.negZ => some (monoFace 6)

theorem bbox_eq_flat_fold (meshes : List Mesh) :
    get_scene_bounding_box meshes =
      (allCorners meshes).foldl bboxStep (⟨pinf, pinf, pinf⟩, ⟨ninf, ninf, ninf⟩) := by
  show List.foldl _ _ _ = _
  generalize (((⟨pinf, pinf, pinf⟩, ⟨ninf, ninf, ninf⟩) : Vec3F × Vec3F)) = a
  induction meshes generalizing a with
  | nil => rfl
  | cons m ms ih =>
      simp only [List.foldl_cons, allCorners, List.flatMap_cons, List.foldl_append,
        worldCorners, List.foldl_map]
      exact ih _

theorem find?_range'_eq_some (ex : ℕ → Bool) (n : ℕ) :
    ∀ (a j : ℕ), a ≤ j → j < a + n → ex j = true →
      (∀ k, a ≤ k → k < j → ex k = false) →
      (List.range' a n).find? ex = some j := by
  induction n with
  | zero => intro a j _ h2 _ _; omega
  | succ n ih =>
      intro a j h1 h2 h3 h4
      rw [List.range'_succ, List.find?_cons]
      rcases Nat.eq_or_lt_of_le h1 with heq | hlt
      · subst heq; rw [h3]
      · rw [h4 a (le_refl a) hlt]
        exact ih (a + 1) j hlt (by omega) h3 (fun k hk hk' => h4 k (by omega) hk')

theorem find?_range'_eq_none (ex : ℕ → Bool) (a n : ℕ)
    (h : ∀ k, a ≤ k → k < a + n → ex k = false) :
    (List.range' a n).find? ex = none := by
  rw [List.find?_eq_none]
  intro x hx
  rw [List.mem_range'_1] at hx
  simp [h x hx.1 hx.2]

/-- C3 counterexample: with `currentIndex = 3` and a candidate file
existing only at index 3, the claimed scan (forward `4..10`, wrap `1..2`)
finds nothing, but the code wraps through index 3 itself and reports it
found. -/
theorem C3_counterexample :
    next_try (fun i => i == 3) 3 = (3, true) ∧
    advanceSpecModel (fun i => i == 3) 3 = (3, false) := by decide

/-- C3 (amended): the forward scan covers `currentIndex+1 .. 10` in
increasing order; the wrap-around scan covers `1 .. currentIndex`
**inclusive** (the stored index is incremented before scanning, so the
wrap range `range(1, currentIndex+1)` includes the old index itself). -/
theorem C3_next_try_scan (ex : ℕ → Bool) (cur j : ℕ) :
    (cur + 1 ≤ j → j ≤ 10 → ex j = true →
      (∀ k, cur + 1 ≤ k → k < j → ex k = false) →
      next_try ex cur = (j, true)) ∧
    ((∀ k, cur + 1 ≤ k → k ≤ 10 → ex k = false) →
      1 ≤ j → j ≤ cur → ex j = true →
      (∀ k, 1 ≤ k → k < j → ex k = false) →
      next_try ex cur = (j, true)) := by
  constructor
  · intro h1 h2 h3 h4
    simp only [next_try]
    rw [find?_range'_eq_some ex (11 - (cur + 1)) (cur + 1) j h1 (by omega) h3 h4]
  · intro hfwd h1 h2 h3 h4
    simp only [next_try]
    rw [find?_range'_eq_none ex (cur + 1) (11 - (cur + 1))
      (fun k hk hk' => hfwd k hk (by omega))]
    rw [find?_range'_eq_some ex (cur + 1 - 1) 1 j h1 (by omega) h3 h4]

/-- C3 witness: forward scan finds index 5 first among `{5, 9}` starting
from `currentIndex = 3`. -/
theorem C3_witness :
    (3 + 1 ≤ 5 ∧ 5 ≤ 10 ∧ (fun i => i == 5 || i == 9) 5 = true) ∧
    next_try (fun i => i == 5 || i == 9) 3 = (5, true) :=
  ⟨by decide,
   (C3_next_try_scan (fun i => i == 5 || i == 9) 3 5).1 (by decide) (by decide)
     (by decide)
     (fun k hk hk' => by
       have h4 : k = 4 := by omega
       subst h4; decide)⟩

/-- C4 counterexample: with no candidate file at all and
`currentIndex = 3`, the code reports not-found but leaves the stored index
at 4 — the pre-incremented value — not the original 3. -/
theorem C4_counterexample :
    next_try (fun _ => false) 3 = (4, false) ∧ (4 : ℕ) ≠ 3 := by decide

/-- C4 (amended): when no candidate exists in either range the operation
reports `found = false`, but the stored index ends at `currentIndex + 1`
(the unconditional increment at the top of `execute` is never rolled
back), not at the original `currentIndex`. -/
theorem C4_not_found_increments (ex : ℕ → Bool) (cur : ℕ)
    (h : ∀ k, ex k = false) :
    next_try ex cur = (cur + 1, false) := by
  simp only [next_try]
  rw [find?_range'_eq_none ex (cur + 1) (11 - (cur + 1)) (fun k _ _ => h k)]
  rw [find?_range'_eq_none ex 1 (cur + 1 - 1) (fun k _ _ => h k)]

/-- C4 witness: concrete run with an empty folder. -/
theorem C4_witness :
    ((fun _ => false) 7 = false) ∧ next_try (fun _ => false) 7 = (8, false) :=
  ⟨rfl, C4_not_found_increments (fun _ => false) 7 (fun _ => rfl)⟩

/-- C10: with `output_index = 0` and no `AIGC_OUTPUT_{i:02}.png` candidate
on disk, the fallback loop never assigns `collage_path`, so the following
`if not collage_path` check reads an unbound local variable instead of
reaching the missing-candidate warning. -/
theorem C10_unbound_local_read :
    find_collage_path (fun _ => false) 0 = ApplyPathOutcome.unboundLocalRead := rfl

/-- C2 counterexample: a `1000 × 1000` atlas does not have the expected
`1536 × 1024` dimensions, yet unpacking raises nothing and still produces
the six named sub-images (PIL `crop` zero-fills out-of-bounds regions;
the source has no dimension check at all). -/
theorem C2_counterexample :
    (Image.new 1000 1000).width ≠ 512 * 3 ∧
    (unpack_sub_textures (Image.new 1000 1000)).length = 6 ∧
    (unpack_sub_textures (Image.new 1000 1000)).map Prod.fst = sub_texture_order :=
  ⟨by decide, rfl, rfl⟩

/-- C2 (amended): `unpack` performs no dimension check: for **every**
input atlas, whatever its dimensions, it produces exactly six sub-images
named `T_B_X .. T_B_-Z`, each `512 × 512`, with any region outside the
source image transparent; no failure path exists. -/
theorem C2_unpack_no_dimension_check (A : Image) :
    (unpack_sub_textures A).length = 6 ∧
    (unpack_sub_textures A).map Prod.fst = sub_texture_order ∧
    ∀ p ∈ unpack_sub_textures A, p.2.width = 512 ∧ p.2.height = 512 := by
  refine ⟨rfl, rfl, ?_⟩
  intro p hp
  simp only [unpack_sub_textures, sub_texture_order, sub_texture_positions,
    List.enum, List.enumFrom, List.map_cons, List.map_nil, List.mem_cons,
    List.not_mem_nil, or_false] at hp
  rcases hp with h | h | h | h | h | h <;> subst h <;> exact ⟨rfl, rfl⟩

theorem planRig_name_count (mn mx : Vec3F) (d : String) (hd : d ∈ dirNames) :
    ((planRig mn mx).filter (fun c => c.name == d)).length = 1 := by
  simp only [dirNames, List.mem_cons, List.not_mem_nil, or_false] at hd
  rcases hd with h | h | h | h | h | h <;> subst h <;> simp [planRig]

theorem removed_name_count (cams : List Cam) (d : String)
    (hd : d ∈ dirNames) :
    ((cams.filter (fun c => ! dirNames.contains c.name)).filter
      (fun c => c.name == d)).length = 0 := by
  rw [List.length_eq_zero, List.filter_filter]
  apply List.filter_eq_nil_iff.mpr
  intro c _
  by_cases h : c.name = d
  · simp [h, hd]
  · simp [h]

/-- C6 counterexample: on an empty scene the bounding box keeps its
sentinel infinities, yet the operator does not fail — it returns FINISHED
having created six cameras (there is no `EmptySceneError` anywhere). -/
theorem C6_counterexample :
    get_scene_bounding_box [] = (⟨pinf, pinf, pinf⟩, ⟨ninf, ninf, ninf⟩) ∧
    (executeGenerate ⟨[], [], false⟩).1 = GenResult.FINISHED ∧
    (executeGenerate ⟨[], [], false⟩).2.cams.length = 6 :=
  ⟨rfl, rfl, rfl⟩

/-- C6 (amended): `get_scene_bounding_box` on an empty mesh set returns
the sentinel box (`min = (+inf,+inf,+inf)`, `max = (-inf,-inf,-inf)`), but
the caller performs no empty-scene check: whenever it is not cancelled for
unrelated reasons it proceeds to create the six cameras from the sentinel
values (their orthographic scale degenerates to `-inf`); no
`EmptySceneError` exists. -/
theorem C6_empty_scene_sentinel (st : SceneState)
    (h1 : check_existing_cameras st.cams = false)
    (h2 : st.has_uncleared = false)
    (h3 : st.meshes = []) :
    get_scene_bounding_box st.meshes = (⟨pinf, pinf, pinf⟩, ⟨ninf, ninf, ninf⟩) ∧
    (executeGenerate st).1 = GenResult.FINISHED ∧
    (executeGenerate st).2.cams =
      st.cams.filter (fun c => ! dirNames.contains c.name) ++
        planRig ⟨pinf, pinf, pinf⟩ ⟨ninf, ninf, ninf⟩ ∧
    (planRig ⟨pinf, pinf, pinf⟩ ⟨ninf, ninf, ninf⟩).length = 6 ∧
    ∀ c ∈ planRig ⟨pinf, pinf, pinf⟩ ⟨ninf, ninf, ninf⟩, c.ortho_scale = ninf := by
  have hb : get_scene_bounding_box st.meshes =
      (⟨pinf, pinf, pinf⟩, ⟨ninf, ninf, ninf⟩) := by rw [h3]; rfl
  refine ⟨hb, ?_, ?_, rfl, ?_⟩
  · simp [executeGenerate, h1, h2]
  · simp [executeGenerate, h1, h2, hb]
  · have hs : fmul ninf (PyFloat.fin (11 / 10)) = ninf := by
      show (if (11 : ℚ) / 10 > 0 then ninf else if (11 : ℚ) / 10 < 0 then pinf else nan) = ninf
      rw [if_pos (by norm_num)]
    intro c hc
    simp only [planRig, List.mem_cons, List.not_mem_nil, or_false] at hc
    rcases hc with h | h | h | h | h | h <;> subst h <;> exact hs

/-- C6 witness: the concrete empty scene. -/
theorem C6_witness :
    (check_existing_cameras (([] : List Cam)) = false ∧
     (⟨[], [], false⟩ : SceneState).has_uncleared = false ∧
     (⟨[], [], false⟩ : SceneState).meshes = []) ∧
    (get_scene_bounding_box (⟨[], [], false⟩ : SceneState).meshes =
       (⟨pinf, pinf, pinf⟩, ⟨ninf, ninf, ninf⟩) ∧
     (executeGenerate ⟨[], [], false⟩).1 = GenResult.FINISHED ∧
     (executeGenerate ⟨[], [], false⟩).2.cams =
       (⟨[], [], false⟩ : SceneState).cams.filter (fun c => ! dirNames.contains c.name) ++
         planRig ⟨pinf, pinf, pinf⟩ ⟨ninf, ninf, ninf⟩ ∧
     (planRig ⟨pinf, pinf, pinf⟩ ⟨ninf, ninf, ninf⟩).length = 6 ∧
     ∀ c ∈ planRig ⟨pinf, pinf, pinf⟩ ⟨ninf, ninf, ninf⟩, c.ortho_scale = ninf) :=
  ⟨⟨rfl, rfl, rfl⟩, C6_empty_scene_sentinel ⟨[], [], false⟩ rfl rfl rfl⟩

/-- C7: every camera of the planned rig carries the same orthographic
scale, and that common value is `max_dimension * 1.1` where
`max_dimension` is the largest componentwise extent of the bounding box
(`1.1` is the hard-coded scale factor, modelled exactly as `11/10`). -/
theorem C7_uniform_ortho_scale (mn mx : Vec3F) :
    (planRig mn mx).length = 6 ∧
    ∀ c ∈ planRig mn mx,
      c.ortho_scale =
        fmul (max3 (fsub mx.x mn.x) (fsub mx.y mn.y) (fsub mx.z mn.z))
          (PyFloat.fin (11 / 10)) := by
  refine ⟨rfl, ?_⟩
  intro c hc
  simp only [planRig, List.mem_cons, List.not_mem_nil, or_false] at hc
  rcases hc with h | h | h | h | h | h <;> subst h <;> rfl

/-- C8 counterexample: with a stale six-camera rig already present (one
derived from an older bounding box, with a different orthographic scale),
the operator cancels and leaves the scene untouched — nothing is removed
and no new cameras are created, so regeneration does not replace the
prior rig. -/
theorem C8_counterexample :
    check_existing_cameras staleRig = true ∧
    executeGenerate ⟨staleRig, [cubeMesh], false⟩ =
      (GenResult.CANCELLED, ⟨staleRig, [cubeMesh], false⟩) :=
  ⟨rfl, rfl⟩

/-- C8 (amended): when the "Orthogonal Cameras" collection already holds
six cameras, `execute` refuses to regenerate (it cancels and the state is
unchanged); only when it holds fewer than six does it remove every object
named `Camera_{dir}` and create the six new cameras, after which exactly
one camera per direction name exists. -/
theorem C8_regeneration (st : SceneState) (h2 : st.has_uncleared = false) :
    (check_existing_cameras st.cams = true →
      executeGenerate st = (GenResult.CANCELLED, st)) ∧
    (check_existing_cameras st.cams = false →
      (executeGenerate st).1 = GenResult.FINISHED ∧
      ∀ d ∈ dirNames,
        ((executeGenerate st).2.cams.filter (fun c => c.name == d)).length = 1) := by
  constructor
  · intro h; simp [executeGenerate, h]
  · intro h
    refine ⟨by simp [executeGenerate, h, h2], ?_⟩
    intro d hd
    have hst : (executeGenerate st).2.cams =
        st.cams.filter (fun c => ! dirNames.contains c.name) ++
          planRig (get_scene_bounding_box st.meshes).1
            (get_scene_bounding_box st.meshes).2 := by
      simp [executeGenerate, h, h2]
    rw [hst, List.filter_append, List.length_append,
      removed_name_count st.cams d hd, planRig_name_count _ _ d hd]

/-- C8 witness: regeneration from a camera-free scene creates exactly one
camera per direction. -/
theorem C8_witness :
    ((⟨[], [cubeMesh], false⟩ : SceneState).has_uncleared = false ∧
     check_existing_cameras (⟨[], [cubeMesh], false⟩ : SceneState).cams = false) ∧
    ((executeGenerate ⟨[], [cubeMesh], false⟩).1 = GenResult.FINISHED ∧
     ∀ d ∈ dirNames,
       ((executeGenerate ⟨[], [cubeMesh], false⟩).2.cams.filter
         (fun c => c.name == d)).length = 1) :=
  ⟨⟨rfl, rfl⟩, (C8_regeneration ⟨[], [cubeMesh], false⟩ rfl).2 rfl⟩

theorem pymin_fin_fin (a b : ℚ) : pymin (fin a) (fin b) = fin (min a b) := by
  show (if decide (b < a) = true then fin b else fin a) = fin (min a b)
  rcases lt_or_le b a with h | h
  · simp [h, min_eq_right h.le]
  · simp [not_lt.mpr h, min_eq_left h]

theorem pymax_fin_fin (a b : ℚ) : pymax (fin a) (fin b) = fin (max a b) := by
  show (if decide (a < b) = true then fin b else fin a) = fin (max a b)
  rcases lt_or_le a b with h | h
  · simp [h, max_eq_right h.le]
  · simp [not_lt.mpr h, max_eq_left h]

theorem foldl_pymin_fin (g : Vec3 → ℚ) (t : List Vec3) : ∀ q : ℚ,
    t.foldl (fun acc c => pymin acc (fin (g c))) (fin q) =
      fin (t.foldl (fun m c => min m (g c)) q) := by
  induction t with
  | nil => intro q; rfl
  | cons c t ih =>
      intro q
      simp only [List.foldl_cons, pymin_fin_fin]
      exact ih (min q (g c))

theorem foldl_pymax_fin (g : Vec3 → ℚ) (t : List Vec3) : ∀ q : ℚ,
    t.foldl (fun acc c => pymax acc (fin (g c))) (fin q) =
      fin (t.foldl (fun m c => max m (g c)) q) := by
  induction t with
  | nil => intro q; rfl
  | cons c t ih =>
      intro q
      simp only [List.foldl_cons, pymax_fin_fin]
      exact ih (max q (g c))

theorem foldl_min_facts (g : Vec3 → ℚ) (t : List Vec3) : ∀ a : ℚ,
    t.foldl (fun m c => min m (g c)) a ≤ a ∧
      (∀ c ∈ t, t.foldl (fun m c => min m (g c)) a ≤ g c) ∧
      (t.foldl (fun m c => min m (g c)) a = a ∨
        ∃ c ∈ t, g c = t.foldl (fun m c => min m (g c)) a) := by
  induction t with
  | nil => intro a; exact ⟨le_refl a, by simp, Or.inl rfl⟩
  | cons b t ih =>
      intro a
      simp only [List.foldl_cons]
      obtain ⟨h1, h2, h3⟩ := ih (min a (g b))
      refine ⟨le_trans h1 (min_le_left a (g b)), ?_, ?_⟩
      · intro c hc
        rcases List.mem_cons.mp hc with h | h
        · subst h; exact le_trans h1 (min_le_right a (g c))
        · exact h2 c h
      · rcases h3 with h | ⟨c, hc, hgc⟩
        · rcases min_choice a (g b) with hm | hm
          · exact Or.inl (h.trans hm)
          · exact Or.inr ⟨b, List.mem_cons_self b t, by rw [h, hm]⟩
        · exact Or.inr ⟨c, List.mem_cons_of_mem b hc, hgc⟩

theorem foldl_max_facts (g : Vec3 → ℚ) (t : List Vec3) : ∀ a : ℚ,
    a ≤ t.foldl (fun m c => max m (g c)) a ∧
      (∀ c ∈ t, g c ≤ t.foldl (fun m c => max m (g c)) a) ∧
      (t.foldl (fun m c => max m (g c)) a = a ∨
        ∃ c ∈ t, g c = t.foldl (fun m c => max m (g c)) a) := by
  induction t with
  | nil => intro a; exact ⟨le_refl a, by simp, Or.inl rfl⟩
  | cons b t ih =>
      intro a
      simp only [List.foldl_cons]
      obtain ⟨h1, h2, h3⟩ := ih (max a (g b))
      refine ⟨le_trans (le_max_left a (g b)) h1, ?_, ?_⟩
      · intro c hc
        rcases List.mem_cons.mp hc with h | h
        · subst h; exact le_trans (le_max_right a (g c)) h1
        · exact h2 c h
      · rcases h3 with h | ⟨c, hc, hgc⟩
        · rcases max_choice a (g b) with hm | hm
          · exact Or.inl (h.trans hm)
          · exact Or.inr ⟨b, List.mem_cons_self b t, by rw [h, hm]⟩
        · exact Or.inr ⟨c, List.mem_cons_of_mem b hc, hgc⟩

theorem pymin_fold_pinf (g : Vec3 → ℚ) (cs : List Vec3) (hcs : cs ≠ []) :
    ∃ m : ℚ, cs.foldl (fun acc c => pymin acc (fin (g c))) pinf = fin m ∧
      (∀ c ∈ cs, m ≤ g c) ∧ (∃ c ∈ cs, g c = m) := by
  match cs, hcs with
  | c :: t, _ =>
      refine ⟨t.foldl (fun m d => min m (g d)) (g c), ?_, ?_, ?_⟩
      · simp only [List.foldl_cons]
        have h0 : pymin pinf (fin (g c)) = fin (g c) := rfl
        rw [h0, foldl_pymin_fin]
      · intro d hd
        obtain ⟨h1, h2, _⟩ := foldl_min_facts g t (g c)
        rcases List.mem_cons.mp hd with h | h
        · subst h; exact h1
        · exact h2 d h
      · obtain ⟨_, _, h3⟩ := foldl_min_facts g t (g c)
        rcases h3 with h | ⟨d, hd, hgd⟩
        · exact ⟨c, List.mem_cons_self c t, h.symm⟩
        · exact ⟨d, List.mem_cons_of_mem c hd, hgd⟩

theorem pymax_fold_ninf (g : Vec3 → ℚ) (cs : List Vec3) (hcs : cs ≠ []) :
    ∃ m : ℚ, cs.foldl (fun acc c => pymax acc (fin (g c))) ninf = fin m ∧
      (∀ c ∈ cs, g c ≤ m) ∧ (∃ c ∈ cs, g c = m) := by
  match cs, hcs with
  | c :: t, _ =>
      refine ⟨t.foldl (fun m d => max m (g d)) (g c), ?_, ?_, ?_⟩
      · simp only [List.foldl_cons]
        have h0 : pymax ninf (fin (g c)) = fin (g c) := rfl
        rw [h0, foldl_pymax_fin]
      · intro d hd
        obtain ⟨h1, h2, _⟩ := foldl_max_facts g t (g c)
        rcases List.mem_cons.mp hd with h | h
        · subst h; exact h1
        · exact h2 d h
      · obtain ⟨_, _, h3⟩ := foldl_max_facts g t (g c)
        rcases h3 with h | ⟨d, hd, hgd⟩
        · exact ⟨c, List.mem_cons_self c t, h.symm⟩
        · exact ⟨d, List.mem_cons_of_mem c hd, hgd⟩

theorem bboxStep_foldl_components (cs : List Vec3) : ∀ s : Vec3F × Vec3F,
    cs.foldl bboxStep s =
      (⟨cs.foldl (fun a c => pymin a (fin c.x)) s.1.x,
        cs.foldl (fun a c => pymin a (fin c.y)) s.1.y,
        cs.foldl (fun a c => pymin a (fin c.z)) s.1.z⟩,
       ⟨cs.foldl (fun a c => pymax a (fin c.x)) s.2.x,
        cs.foldl (fun a c => pymax a (fin c.y)) s.2.y,
        cs.foldl (fun a c => pymax a (fin c.z)) s.2.z⟩) := by
  induction cs with
  | nil => intro s; rfl
  | cons c t ih =>
      intro s
      simp only [List.foldl_cons]
      rw [ih]
      rfl

/-- C5: for every non-empty mesh sequence (8 local corners each), the box
returned by `get_scene_bounding_box` is finite and its min/max equal, on
each axis independently, the componentwise minimum/maximum over all
world-transformed corners: every transformed corner lies inside the box,
and each component is attained by some corner. -/
theorem C5_bounds_are_extrema (meshes : List Mesh)
    (hne : meshes ≠ [])
    (h8 : ∀ m ∈ meshes, m.bound_box.length = 8) :
    ∃ qx qy qz rx ry rz : ℚ,
      (get_scene_bounding_box meshes).1 = ⟨fin qx, fin qy, fin qz⟩ ∧
      (get_scene_bounding_box meshes).2 = ⟨fin rx, fin ry, fin rz⟩ ∧
      (∀ c ∈ allCorners meshes,
        qx ≤ c.x ∧ qy ≤ c.y ∧ qz ≤ c.z ∧ c.x ≤ rx ∧ c.y ≤ ry ∧ c.z ≤ rz) ∧
      (∃ c ∈ allCorners meshes, c.x = qx) ∧
      (∃ c ∈ allCorners meshes, c.y = qy) ∧
      (∃ c ∈ allCorners meshes, c.z = qz) ∧
      (∃ c ∈ allCorners meshes, c.x = rx) ∧
      (∃ c ∈ allCorners meshes, c.y = ry) ∧
      (∃ c ∈ allCorners meshes, c.z = rz) := by
  have hcs : allCorners meshes ≠ [] := by
    match meshes, hne with
    | m :: ms, _ =>
        have h := h8 m (List.mem_cons_self m ms)
        simp only [allCorners, List.flatMap_cons]
        intro hemp
        have h1 := (List.append_eq_nil.mp hemp).1
        have h2 : m.bound_box.length = 0 := by
          have h3 := congrArg List.length h1
          simpa [worldCorners] using h3
        omega
  obtain ⟨qx, hqx, hqxb, hqxm⟩ := pymin_fold_pinf Vec3.x (allCorners meshes) hcs
  obtain ⟨qy, hqy, hqyb, hqym⟩ := pymin_fold_pinf Vec3.y (allCorners meshes) hcs
  obtain ⟨qz, hqz, hqzb, hqzm⟩ := pymin_fold_pinf Vec3.z (allCorners meshes) hcs
  obtain ⟨rx, hrx, hrxb, hrxm⟩ := pymax_fold_ninf Vec3.x (allCorners meshes) hcs
  obtain ⟨ry, hry, hryb, hrym⟩ := pymax_fold_ninf Vec3.y (allCorners meshes) hcs
  obtain ⟨rz, hrz, hrzb, hrzm⟩ := pymax_fold_ninf Vec3.z (allCorners meshes) hcs
  refine ⟨qx, qy, qz, rx, ry, rz, ?_, ?_, ?_, hqxm, hqym, hqzm, hrxm, hrym, hrzm⟩
  · rw [bbox_eq_flat_fold, bboxStep_foldl_components]
    dsimp only
    rw [hqx, hqy, hqz]
  · rw [bbox_eq_flat_fold, bboxStep_foldl_components]
    dsimp only
    rw [hrx, hry, hrz]
  · intro c hc
    exact ⟨hqxb c hc, hqyb c hc, hqzb c hc, hrxb c hc, hryb c hc, hrzb c hc⟩

/-- C5 witness: the unit cube with the identity world matrix. -/
theorem C5_witness :
    (([cubeMesh] : List Mesh) ≠ [] ∧
      ∀ m ∈ ([cubeMesh] : List Mesh), m.bound_box.length = 8) ∧
    (∃ qx qy qz rx ry rz : ℚ,
      (get_scene_bounding_box [cubeMesh]).1 = ⟨fin qx, fin qy, fin qz⟩ ∧
      (get_scene_bounding_box [cubeMesh]).2 = ⟨fin rx, fin ry, fin rz⟩ ∧
      (∀ c ∈ allCorners [cubeMesh],
        qx ≤ c.x ∧ qy ≤ c.y ∧ qz ≤ c.z ∧ c.x ≤ rx ∧ c.y ≤ ry ∧ c.z ≤ rz) ∧
      (∃ c ∈ allCorners [cubeMesh], c.x = qx) ∧
      (∃ c ∈ allCorners [cubeMesh], c.y = qy) ∧
      (∃ c ∈ allCorners [cubeMesh], c.z = qz) ∧
      (∃ c ∈ allCorners [cubeMesh], c.x = rx) ∧
      (∃ c ∈ allCorners [cubeMesh], c.y = ry) ∧
      (∃ c ∈ allCorners [cubeMesh], c.z = rz)) :=
  ⟨⟨by decide, by decide⟩, C5_bounds_are_extrema [cubeMesh] (by decide) (by decide)⟩

theorem paste_pix_inside (base img : Image) (x y u v : ℕ)
    (hu : u < img.width) (hv : v < img.height) :
    (base.paste img x y).pix (x + u) (y + v) = img.pix u v := by
  simp only [Image.paste]
  rw [if_pos ⟨Nat.le_add_right x u, by omega, Nat.le_add_right y v, by omega⟩]
  rw [Nat.add_sub_cancel_left, Nat.add_sub_cancel_left]

theorem paste_pix_outside (base img : Image) (x y a b : ℕ)
    (h : a < x ∨ x + img.width ≤ a ∨ b < y ∨ y + img.height ≤ b) :
    (base.paste img x y).pix a b = base.pix a b := by
  simp only [Image.paste]
  rw [if_neg]
  rintro ⟨h1, h2, h3, h4⟩
  omega

theorem collageStep_pix_outside (faces : Dir → Option Image)
    (hdim : ∀ d img, faces d = some img → img.width = 512 ∧ img.height = 512)
    (base : Image) (p : ℕ × Dir) (a b : ℕ)
    (h : outsideCell p.1 a b) :
    (collageStep faces base p).pix a b = base.pix a b := by
  cases hf : faces p.2 with
  | none => simp [collageStep, hf]
  | some img =>
      obtain ⟨hw, hh⟩ := hdim p.2 img hf
      simp only [collageStep, hf]
      apply paste_pix_outside
      rw [hw, hh]
      exact h

theorem collageStep_foldl_outside (faces : Dir → Option Image)
    (hdim : ∀ d img, faces d = some img → img.width = 512 ∧ img.height = 512)
    (L : List (ℕ × Dir)) : ∀ (base : Image) (a b : ℕ),
    (∀ p ∈ L, outsideCell p.1 a b) →
    (L.foldl (collageStep faces) base).pix a b = base.pix a b := by
  induction L with
  | nil => intro base a b _; rfl
  | cons p L ih =>
      intro base a b h
      simp only [List.foldl_cons]
      rw [ih _ a b (fun q hq => h q (List.mem_cons_of_mem p hq))]
      exact collageStep_pix_outside faces hdim base p a b (h p (List.mem_cons_self p L))

theorem collageStep_dims (faces : Dir → Option Image) (base : Image) (p : ℕ × Dir) :
    (collageStep faces base p).width = base.width ∧
      (collageStep faces base p).height = base.height := by
  cases hf : faces p.2 <;> simp [collageStep, hf, Image.paste]

theorem create_collage_dims (faces : Dir → Option Image) :
    (create_collage faces).width = 512 * 3 ∧ (create_collage faces).height = 512 * 2 := by
  rw [create_collage]
  generalize hL : image_order.enum = L
  have h : ∀ (M : List (ℕ × Dir)) (base : Image),
      (M.foldl (collageStep faces) base).width = base.width ∧
        (M.foldl (collageStep faces) base).height = base.height := by
    intro M
    induction M with
    | nil => intro base; exact ⟨rfl, rfl⟩
    | cons p M ih =>
        intro base
        simp only [List.foldl_cons]
        obtain ⟨h1, h2⟩ := ih (collageStep faces base p)
        obtain ⟨h3, h4⟩ := collageStep_dims faces base p
        exact ⟨h1.trans h3, h2.trans h4⟩
  exact h L (Image.new (512 * 3) (512 * 2))

theorem collage_split_pix (faces : Dir → Option Image)
    (hdim : ∀ d img, faces d = some img → img.width = 512 ∧ img.height = 512)
    (L1 L2 : List (ℕ × Dir)) (i : ℕ) (d : Dir)
    (hL : image_order.enum = L1 ++ (i, d) :: L2)
    (u v : ℕ) (hu : u < 512) (hv : v < 512)
    (h1 : ∀ p ∈ L1, outsideCell p.1 ((i % 3) * 512 + u) ((i / 3) * 512 + v))
    (h2 : ∀ p ∈ L2, outsideCell p.1 ((i % 3) * 512 + u) ((i / 3) * 512 + v)) :
    (create_collage faces).pix ((i % 3) * 512 + u) ((i / 3) * 512 + v) =
      (match faces d with
       | some img => img.pix u v
       | none => transparentPix) := by
  rw [create_collage, hL, List.foldl_append, List.foldl_cons]
  rw [collageStep_foldl_outside faces hdim L2 _ _ _ h2]
  cases hf : faces d with
  | some img =>
      obtain ⟨hw, hh⟩ := hdim d img hf
      simp only [collageStep, hf]
      exact paste_pix_inside _ img _ _ u v (by rw [hw]; exact hu) (by rw [hh]; exact hv)
  | none =>
      simp only [collageStep, hf]
      rw [collageStep_foldl_outside faces hdim L1 _ _ _ h1]
      rfl

theorem collage_cell_pix (faces : Dir → Option Image)
    (hdim : ∀ d img, faces d = some img → img.width = 512 ∧ img.height = 512)
    (i : ℕ) (hi : i < 6) (u v : ℕ) (hu : u < 512) (hv : v < 512) :
    (create_collage faces).pix ((i % 3) * 512 + u) ((i / 3) * 512 + v) =
      (match faces (image_order.getD i Dir.X) with
       | some img => img.pix u v
       | none => transparentPix) := by
  interval_cases i
  · exact collage_split_pix faces hdim []
      [(1, Dir.Y), (2, Dir.Z), (3, Dir.negX), (4, Dir.negY), (5, Dir.negZ)] 0 Dir.X rfl
      u v hu hv (by simp)
      (by intro p hp; fin_cases hp <;> simp only [outsideCell] <;> omega)
  · exact collage_split_pix faces hdim [(0, Dir.X)]
      [(2, Dir.Z), (3, Dir.negX), (4, Dir.negY), (5, Dir.negZ)] 1 Dir.Y rfl
      u v hu hv
      (by intro p hp; fin_cases hp <;> simp only [outsideCell] <;> omega)
      (by intro p hp; fin_cases hp <;> simp only [outsideCell] <;> omega)
  · exact collage_split_pix faces hdim [(0, Dir.X), (1, Dir.Y)]
      [(3, Dir.negX), (4, Dir.negY), (5, Dir.negZ)] 2 Dir.Z rfl
      u v hu hv
      (by intro p hp; fin_cases hp <;> simp only [outsideCell] <;> omega)
      (by intro p hp; fin_cases hp <;> simp only [outsideCell] <;> omega)
  · exact collage_split_pix faces hdim [(0, Dir.X), (1, Dir.Y), (2, Dir.Z)]
      [(4, Dir.negY), (5, Dir.negZ)] 3 Dir.negX rfl
      u v hu hv
      (by intro p hp; fin_cases hp <;> simp only [outsideCell] <;> omega)
      (by intro p hp; fin_cases hp <;> simp only [outsideCell] <;> omega)
  · exact collage_split_pix faces hdim [(0, Dir.X), (1, Dir.Y), (2, Dir.Z), (3, Dir.negX)]
      [(5, Dir.negZ)] 4 Dir.negY rfl
      u v hu hv
      (by intro p hp; fin_cases hp <;> simp only [outsideCell] <;> omega)
      (by intro p hp; fin_cases hp <;> simp only [outsideCell] <;> omega)
  · exact collage_split_pix faces hdim
      [(0, Dir.X), (1, Dir.Y), (2, Dir.Z), (3, Dir.negX), (4, Dir.negY)] [] 5 Dir.negZ rfl
      u v hu hv
      (by intro p hp; fin_cases hp <;> simp only [outsideCell] <;> omega)
      (by simp)

/-- C9: for every (possibly partial) mapping of 512×512 faces, the atlas
is `1536 × 1024`; face `i` of the fixed order `[+X,+Y,+Z,-X,-Y,-Z]`, when
supplied, appears exactly at pixel origin `((i % 3)*512, (i / 3)*512)`,
and a missing direction leaves its whole cell fully transparent; packing
is total, so no error is raised for missing directions. -/
theorem C9_pack_layout (faces : Dir → Option Image)
    (hdim : ∀ d img, faces d = some img → img.width = 512 ∧ img.height = 512) :
    (create_collage faces).width = 512 * 3 ∧
    (create_collage faces).height = 512 * 2 ∧
    ∀ i, i < 6 → ∀ u v, u < 512 → v < 512 →
      (∀ img, faces (image_order.getD i Dir.X) = some img →
        (create_collage faces).pix ((i % 3) * 512 + u) ((i / 3) * 512 + v) =
          img.pix u v) ∧
      (faces (image_order.getD i Dir.X) = none →
        (create_collage faces).pix ((i % 3) * 512 + u) ((i / 3) * 512 + v) =
          transparentPix) := by
  obtain ⟨hw, hh⟩ := create_collage_dims faces
  refine ⟨hw, hh, ?_⟩
  intro i hi u v hu hv
  have h := collage_cell_pix faces hdim i hi u v hu hv
  constructor
  · intro img hf
    rw [hf] at h
    exact h
  · intro hf
    rw [hf] at h
    exact h

/-- C9 witness: a concrete partial mapping supplying four of six faces. -/
theorem C9_witness :
    (∀ d img, partialFaces d = some img → img.width = 512 ∧ img.height = 512) ∧
    ((create_collage partialFaces).width = 512 * 3 ∧
     (create_collage partialFaces).height = 512 * 2 ∧
     ∀ i, i < 6 → ∀ u v, u < 512 → v < 512 →
       (∀ img, partialFaces (image_order.getD i Dir.X) = some img →
         (create_collage partialFaces).pix ((i % 3) * 512 + u) ((i / 3) * 512 + v) =
           img.pix u v) ∧
       (partialFaces (image_order.getD i Dir.X) = none →
         (create_collage partialFaces).pix ((i % 3) * 512 + u) ((i / 3) * 512 + v) =
           transparentPix)) := by
  have hdim : ∀ d img, partialFaces d = some img →
      img.width = 512 ∧ img.height = 512 := by
    intro d img h
    cases d <;> simp only [partialFaces] at h <;>
      first
        | exact Option.noConfusion h
        | (injection h with h1; rw [← h1]; exact ⟨rfl, rfl⟩)
  exact ⟨hdim, C9_pack_layout partialFaces hdim⟩

/-- C1: round-trip — packing a complete six-entry mapping of 512×512
faces and unpacking the resulting atlas at the same six fixed cell
origins gives back six 512×512 images whose pixels all equal the
originals (the `i`-th unpacked slot matches the `i`-th direction of the
fixed order). -/
theorem C1_pack_unpack_roundtrip (faces : Dir → Image)
    (hdim : ∀ d, (faces d).width = 512 ∧ (faces d).height = 512) :
    (unpack_sub_textures (create_collage (fun d => some (faces d)))).length = 6 ∧
    ∀ i, i < 6 → ∀ u v, u < 512 → v < 512 →
      ((unpack_sub_textures (create_collage (fun d => some (faces d)))).getD i
          ("", Image.new 0 0)).2.width = 512 ∧
      ((unpack_sub_textures (create_collage (fun d => some (faces d)))).getD i
          ("", Image.new 0 0)).2.height = 512 ∧
      ((unpack_sub_textures (create_collage (fun d => some (faces d)))).getD i
          ("", Image.new 0 0)).2.pix u v =
        (faces (image_order.getD i Dir.X)).pix u v := by
  have hdim' : ∀ d img, (fun d => some (faces d)) d = some img →
      img.width = 512 ∧ img.height = 512 := by
    intro d img h
    injection h with h1
    rw [← h1]
    exact hdim d
  obtain ⟨hcw, hch⟩ := create_collage_dims (fun d => some (faces d))
  refine ⟨rfl, ?_⟩
  intro i hi u v hu hv
  have h := collage_cell_pix (fun d => some (faces d)) hdim' i hi u v hu hv
  interval_cases i
  · refine ⟨rfl, rfl, ?_⟩
    rw [show (unpack_sub_textures (create_collage (fun d => some (faces d)))).getD 0
        ("", Image.new 0 0) =
        ("T_B_X", (create_collage (fun d => some (faces d))).crop 0 0 512 512) from rfl]
    simp only [Image.crop]
    rw [if_pos ⟨by rw [hcw]; omega, by rw [hch]; omega⟩]
    exact h
  · refine ⟨rfl, rfl, ?_⟩
    rw [show (unpack_sub_textures (create_collage (fun d => some (faces d)))).getD 1
        ("", Image.new 0 0) =
        ("T_B_Y", (create_collage (fun d => some (faces d))).crop 512 0 1024 512) from rfl]
    simp only [Image.crop]
    rw [if_pos ⟨by rw [hcw]; omega, by rw [hch]; omega⟩]
    exact h
  · refine ⟨rfl, rfl, ?_⟩
    rw [show (unpack_sub_textures (create_collage (fun d => some (faces d)))).getD 2
        ("", Image.new 0 0) =
        ("T_B_Z", (create_collage (fun d => some (faces d))).crop 1024 0 1536 512) from rfl]
    simp only [Image.crop]
    rw [if_pos ⟨by rw [hcw]; omega, by rw [hch]; omega⟩]
    exact h
  · refine ⟨rfl, rfl, ?_⟩
    rw [show (unpack_sub_textures (create_collage (fun d => some (faces d)))).getD 3
        ("", Image.new 0 0) =
        ("T_B_-X", (create_collage (fun d => some (faces d))).crop 0 512 512 1024) from rfl]
    simp only [Image.crop]
    rw [if_pos ⟨by rw [hcw]; omega, by rw [hch]; omega⟩]
    exact h
  · refine ⟨rfl, rfl, ?_⟩
    rw [show (unpack_sub_textures (create_collage (fun d => some (faces d)))).getD 4
        ("", Image.new 0 0) =
        ("T_B_-Y", (create_collage (fun d => some (faces d))).crop 512 512 1024 1024) from rfl]
    simp only [Image.crop]
    rw [if_pos ⟨by rw [hcw]; omega, by rw [hch]; omega⟩]
    exact h
  · refine ⟨rfl, rfl, ?_⟩
    rw [show (unpack_sub_textures (create_collage (fun d => some (faces d)))).getD 5
        ("", Image.new 0 0) =
        ("T_B_-Z", (create_collage (fun d => some (faces d))).crop 1024 512 1536 1024) from rfl]
    simp only [Image.crop]
    rw [if_pos ⟨by rw [hcw]; omega, by rw [hch]; omega⟩]
    exact h

/-- C1 witness: a complete concrete mapping of six distinct faces. -/
theorem C1_witness :
    (∀ d, (fullFaces d).width = 512 ∧ (fullFaces d).height = 512) ∧
    ((unpack_sub_textures (create_collage (fun d => some (fullFaces d)))).length = 6 ∧
     ∀ i, i < 6 → ∀ u v, u < 512 → v < 512 →
       ((unpack_sub_textures (create_collage (fun d => some (fullFaces d)))).getD i
           ("", Image.new 0 0)).2.width = 512 ∧
       ((unpack_sub_textures (create_collage (fun d => some (fullFaces d)))).getD i
           ("", Image.new 0 0)).2.height = 512 ∧
       ((unpack_sub_textures (create_collage (fun d => some (fullFaces d)))).getD i
           ("", Image.new 0 0)).2.pix u v =
         (fullFaces (image_order.getD i Dir.X)).pix u v) := by
  have hdim : ∀ d, (fullFaces d).width = 512 ∧ (fullFaces d).height = 512 := by
    intro d
    cases d <;> exact ⟨rfl, rfl⟩
  exact ⟨hdim, C1_pack_unpack_roundtrip fullFaces hdim⟩
